import Mathlib

/-!
Verification of the biopellet production dashboard (src/app_pellet.py).

The development shallowly embeds the data-wrangling core of the program:

* the per-cell numeric normalization
  `df[col].astype(str).str.extract(r'(\d+\.?\d*)').astype(float)`
  (lines 78-80 and 131-133 of the source);
* the multi-file loader `load_and_preprocess_data` (lines 17-68):
  date resolution from a `Date:` label in the first line, fallback to the
  filename, skipping on double failure, and the final stable sort by date;
* the single-day analysis `display_single_day_analysis` (lines 71-115):
  the four first-match KPI lookups guarded by the `Standard < 1` rule and
  the all-or-nothing error handling, together with the in-place rewrite of
  the record's Standard/Actual columns;
* the range analysis `display_date_range_analysis` (lines 117-172):
  row-wise concatenation, the OEE / production-trend filters and the
  "no data" outcomes.

Floats are modelled exactly, as sign + decimal mantissa/exponent pairs
(every value the normalization produces is a finite decimal), and float
`str()` follows CPython's rule: plain decimal for zero and magnitudes in
[1e-4, 1e16), scientific notation (mantissa, `e`, signed two-digit-padded
exponent) outside that range.  Because the normalization re-coerces its
own float output to text, this threshold matters: a value such as 5e-05
renders as `5e-05`, from which the digit pattern re-extracts only the
mantissa — the normalization is not idempotent there, and signs of such
magnitudes do not survive as absolute values.  Binary rounding of doubles
is not modelled (values stay exact decimals); no claim here depends on
mantissa rounding.  Calendar dates are ordinals (natural numbers) and the
external dateutil parsers are explicit function parameters.
-/

namespace AppPellet

/-- The numeric value of an ASCII digit character. -/
def charVal (c : Char) : ℕ := c.toNat - 48

/-- Parse a big-endian list of digit characters as a natural number
(models int/float parsing of the digit runs of a regex match). -/
def parseNatChars (l : List Char) : ℕ := l.foldl (fun a c => 10 * a + charVal c) 0

/-- Big-endian decimal digit characters of a positive natural number;
the first argument is fuel (any bound on the number works). -/
def natToCharsAux : ℕ → ℕ → List Char
  | 0, _ => []
  | fuel + 1, n =>
    if n = 0 then [] else natToCharsAux fuel (n / 10) ++ [Nat.digitChar (n % 10)]

/-- Big-endian decimal digit characters of a natural number (models the
integer part of Python's float repr). -/
def natToChars (n : ℕ) : List Char := if n = 0 then ['0'] else natToCharsAux n n

/-- Exactly `k` big-endian digit characters for a fractional part `m < 10^k`
(models the zero-padded digits after the decimal point). -/
def fracChars : ℕ → ℕ → List Char
  | 0, _ => []
  | k + 1, m => fracChars k (m / 10) ++ [Nat.digitChar (m % 10)]

/-- Strip trailing fractional zeros; the exponent comes first so recursion
is structural. -/
def canonAux : ℕ → ℕ → ℕ × ℕ
  | 0, n => (n, 0)
  | k + 1, n => if n % 10 = 0 then canonAux k (n / 10) else (n, k + 1)

/-- Canonical form of a decimal pair `(n, k)` denoting `n / 10^k`: trailing
zeros of the fractional part are stripped, as Python's float value
identifies 12.50 with 12.5. -/
def canon (p : ℕ × ℕ) : ℕ × ℕ := canonAux p.2 p.1

/-- A pandas cell: a raw string, a float (sign, mantissa `n`, decimal
exponent `k`, denoting `±n/10^k`), or NaN (the missing-value marker). -/
inductive Cell where
  | vstr : String → Cell
  | vnum : Bool → ℕ → ℕ → Cell
  | vnan : Cell
deriving DecidableEq

/-- Plain (fixed-point) rendering of an unsigned float `(n, k)`: an
integer part, a point, and either the `k` fractional digits or a single
`0`.  This is Python's str() inside the plain regime only. -/
def renderPair (n k : ℕ) : List Char :=
  if k = 0 then natToChars n ++ ['.', '0']
  else natToChars (n / 10 ^ k) ++ '.' :: fracChars k (n % 10 ^ k)

/-- Strip factors of ten from a positive number (fuel-based so the
recursion is structural): the significant digits of a mantissa. -/
def stripTZAux : ℕ → ℕ → ℕ
  | 0, n => n
  | f + 1, n => if n ≠ 0 ∧ n % 10 = 0 then stripTZAux f (n / 10) else n

/-- Significant-digit part of a number (trailing zeros removed). -/
def stripTZ (n : ℕ) : ℕ := stripTZAux n n

/-- Exponent digits of Python's scientific notation, padded to at least
two digits (`5e-05`, `1e+20`). -/
def expDigits (e : ℕ) : List Char :=
  if e < 10 then '0' :: natToChars e else natToChars e

/-- Scientific rendering of a positive float `(n, k)`, as Python writes
it: the significant digits with a point after the first (omitted when
there is only one), then `e`, the exponent sign and the padded decimal
exponent.  The decimal exponent of `n / 10^k` is `digits(n) - 1 - k`. -/
def sciChars (n k : ℕ) : List Char :=
  (match natToChars (stripTZ n) with
    | [d] => [d]
    | d :: rest => d :: '.' :: rest
    | [] => ['0'])
  ++ 'e' ::
    (if k + 1 > (natToChars n).length
     then '-' :: expDigits (k + 1 - (natToChars n).length)
     else '+' :: expDigits ((natToChars n).length - 1 - k))

/-- Python renders a float in plain decimal exactly when it is zero or
its decimal exponent `digits(n) - 1 - k` lies in [-4, 16); otherwise it
uses scientific notation. -/
def plainB (n k : ℕ) : Bool :=
  n == 0 || (decide (k ≤ (natToChars n).length + 3)
    && decide ((natToChars n).length ≤ k + 16))

/-- Python's `str()` of the nonnegative float `n / 10^k`: `0.0` for zero,
fixed-point inside the plain regime, scientific notation outside it. -/
def pyRepr (n k : ℕ) : List Char :=
  if n = 0 then ['0', '.', '0']
  else if k ≤ (natToChars n).length + 3 ∧ (natToChars n).length ≤ k + 16
    then renderPair n k
  else sciChars n k

/-- `astype(str)` on one cell: a string is itself, a float is rendered as
Python's str() does (with a leading minus sign if negative), NaN renders
as `nan`. -/
def cellToChars : Cell → List Char
  | .vstr s => s.toList
  | .vnum neg n k => if neg then '-' :: pyRepr n k else pyRepr n k
  | .vnan => ['n', 'a', 'n']

/-- The characters matched by the regex `\d+\.?\d*` at a position starting
with a digit: a maximal digit run, then optionally a point and another
maximal digit run. -/
def matchNum (l : List Char) : List Char :=
  match l.dropWhile Char.isDigit with
  | d :: r =>
    if d = '.' then l.takeWhile Char.isDigit ++ d :: r.takeWhile Char.isDigit
    else l.takeWhile Char.isDigit
  | [] => l.takeWhile Char.isDigit

/-- Leftmost match of `(\d+\.?\d*)` in a character list, as in
`str.extract(r'(\d+\.?\d*)')`: the match starts at the first digit;
with no digit present there is no match. -/
def extractNum : List Char → Option (List Char)
  | [] => none
  | c :: cs => if c.isDigit then some (matchNum (c :: cs)) else extractNum cs

/-- `float(...)` on a matched numeral: integer digits, then fractional
digits after the optional point, reduced to canonical decimal form. -/
def parseDec (m : List Char) : ℕ × ℕ :=
  match m.dropWhile Char.isDigit with
  | d :: fp =>
    if d = '.' then
      canon (parseNatChars (m.takeWhile Char.isDigit) * 10 ^ fp.length + parseNatChars fp,
        fp.length)
    else canon (parseNatChars (m.takeWhile Char.isDigit), 0)
  | [] => canon (parseNatChars (m.takeWhile Char.isDigit), 0)

/-- One cell of `df[col].astype(str).str.extract(r'(\d+\.?\d*)').astype(float)`
(source lines 80 and 133): coerce to text, extract the first decimal-number
substring, parse it as a float; no match gives NaN. -/
def normalizeCell (c : Cell) : Cell :=
  match extractNum (cellToChars c) with
  | some m => Cell.vnum false (parseDec m).1 (parseDec m).2
  | none => Cell.vnan

/-- Rational value of a decimal pair. -/
def toRatP (p : ℕ × ℕ) : ℚ := (p.1 : ℚ) / 10 ^ p.2

/-- Rational value of a cell, when it holds a float. -/
def cellRat? : Cell → Option ℚ
  | .vnum neg n k => some ((if neg then -(n : ℚ) else (n : ℚ)) / 10 ^ k)
  | .vnan => none
  | .vstr _ => none

/-- The pandas test `value < 1.0` on a cell; NaN compares false. -/
def cellLtOneB (c : Cell) : Bool :=
  match cellRat? c with
  | some q => decide (q < 1)
  | none => false

/-! ### Multi-file loader (`load_and_preprocess_data`, source lines 17-68) -/

/-- Case-insensitive: the pattern characters are a (lowercased) starting
segment of the text, as matching `Date:` with `re.IGNORECASE` does. -/
def ciStarts : List Char → List Char → Bool
  | [], _ => true
  | _ :: _, [] => false
  | p :: ps, c :: cs => (p.toLower == c.toLower) && ciStarts ps cs

/-- Greedy match of the tail regex fragment with backtracking, as the
engine runs it on the text after the label: maximal whitespace, then at
least one character captured up to the next comma.  If everything up to
the first comma is whitespace, the star gives one whitespace character
back to the capture; with no whitespace at all the fragment fails. -/
def capAfterWs (r : List Char) : Option (List Char) :=
  match r.dropWhile Char.isWhitespace with
  | c :: rest =>
    if c = ',' then
      match (r.takeWhile Char.isWhitespace).getLast? with
      | some x => some [x]
      | none => none
    else some ((c :: rest).takeWhile (fun d => !(d == ',')))
  | [] =>
    match (r.takeWhile Char.isWhitespace).getLast? with
    | some x => some [x]
    | none => none

/-- The raw capture by the search of the pattern (source line 40): try each
start position left to right; where the case-insensitive label matches and
the tail fragment succeeds, return its capture, otherwise move on. -/
def dateLabelCapture : List Char → Option (List Char)
  | [] => none
  | c :: cs =>
    if ciStarts "date:".toList (c :: cs) then
      match capAfterWs ((c :: cs).drop 5) with
      | some cap => some cap
      | none => dateLabelCapture cs
    else dateLabelCapture cs

/-- Python's `str.strip()`: drop whitespace from both ends. -/
def stripChars (l : List Char) : List Char :=
  ((l.dropWhile Char.isWhitespace).reverse.dropWhile Char.isWhitespace).reverse

/-- One data row of a CSV body: the Particulars label with its Standard
and Actual cells. -/
structure CsvRow where
  particulars : String
  standard : Cell
  actual : Cell
deriving DecidableEq

/-- A row after the loader tags it with the file's resolved date
(the assignment on source line 60). -/
structure Row where
  particulars : String
  standard : Cell
  actual : Cell
  date : ℕ
deriving DecidableEq

/-- Tag one CSV row with the resolved date. -/
def tagRow (d : ℕ) (r : CsvRow) : Row :=
  ⟨r.particulars, r.standard, r.actual, d⟩

/-- A CSV file of the data directory: its name, its first line (the date
header) and its body rows. -/
structure SrcFile where
  name : String
  firstLine : String
  body : List CsvRow
deriving DecidableEq

/-- One entry of the loaded collection: the resolved date and the tagged
table (the dictionaries appended on source line 61). -/
structure DailyRecord where
  date : ℕ
  df : List Row
deriving DecidableEq

/-- Date resolution for one file (source lines 38-55).  The external
dateutil calls are the parameters: `pS` models the strict content parse
on line 45, `pF` the fuzzy filename parse on line 52.  The content
capture, stripped, is tried first; on extraction or parse failure the
filename is tried; `none` means the file is skipped. -/
def resolveDate (pS pF : String → Option ℕ) (f : SrcFile) : Option ℕ :=
  match dateLabelCapture f.firstLine.toList with
  | some cap =>
    match pS (String.mk (stripChars cap)) with
    | some d => some d
    | none => pF f.name
  | none => pF f.name

/-- Build the record for one file, when its date resolves. -/
def mkRecord (pS pF : String → Option ℕ) (f : SrcFile) : Option DailyRecord :=
  (resolveDate pS pF f).map fun d => ⟨d, f.body.map (tagRow d)⟩

/-- Ordering of records by resolved date, the sort key of source line 67. -/
def recLE (a b : DailyRecord) : Prop := a.date ≤ b.date

instance : DecidableRel recLE := fun a b => inferInstanceAs (Decidable (a.date ≤ b.date))

instance : IsTotal DailyRecord recLE := ⟨fun a b => Nat.le_total a.date b.date⟩

instance : IsTrans DailyRecord recLE := ⟨fun _ _ _ h h' => Nat.le_trans h h'⟩

/-- `load_and_preprocess_data` over an abstract directory listing: each
file contributes a record when its date resolves, and the collection is
sorted (stably, as Python's list sort) by date. -/
def loadAndPreprocessData (pS pF : String → Option ℕ) (files : List SrcFile) :
    List DailyRecord :=
  List.insertionSort recLE (files.filterMap (mkRecord pS pF))

/-! ### Single-day analysis (`display_single_day_analysis`, lines 71-115) -/

/-- The column cleaning of source lines 78-80 and 131-133 on one row. -/
def cleanRow (r : Row) : Row :=
  { r with standard := normalizeCell r.standard, actual := normalizeCell r.actual }

/-- Clean the Standard and Actual columns of a whole table. -/
def cleanTable (df : List Row) : List Row := df.map cleanRow

/-- The KPI block computed in the `try` of source lines 85-94. -/
structure Summary where
  prodActual : Option ℚ
  prodStandard : Option ℚ
  variance : Option ℚ
  oeePelletI : Option ℚ
  oeePelletII : Option ℚ
deriving DecidableEq

/-- The four first-match lookups of source lines 86-89 on the cleaned
table; an IndexError in any of them (a first match missing) aborts the
whole block, so the result is all-or-nothing. -/
def summarizeCleaned (d : List Row) : Option Summary :=
  match d.find? (fun r => r.particulars == "Production target"),
        d.find? (fun r => r.particulars == "Pellet-I" && cellLtOneB r.standard),
        d.find? (fun r => r.particulars == "Pellet-II" && cellLtOneB r.standard) with
  | some pr, some p1, some p2 =>
    some { prodActual := cellRat? pr.actual
           prodStandard := cellRat? pr.standard
           variance :=
             match cellRat? pr.actual, cellRat? pr.standard with
             | some a, some s => some ((a - s) / s * 100)
             | _, _ => none
           oeePelletI := (cellRat? p1.actual).map (fun x => x * 100)
           oeePelletII := (cellRat? p2.actual).map (fun x => x * 100) }
  | _, _, _ => none

/-- `display_single_day_analysis`: the in-place column assignment of line
80 rewrites the record's own table, so the function is modelled with the
record state passed through; the first component is the KPI summary
(`none` models the warning path of line 96). -/
def displaySingleDayAnalysis (rec : DailyRecord) : Option Summary × DailyRecord :=
  (summarizeCleaned (cleanTable rec.df), ⟨rec.date, cleanTable rec.df⟩)

/-! ### Date-range analysis (`display_date_range_analysis`, lines 117-172) -/

/-- Outcome of one trend section: a chart over the filtered rows, or the
"no data available" notice of lines 150 and 167. -/
inductive TrendOutcome where
  | chart : List Row → TrendOutcome
  | noData : TrendOutcome
deriving DecidableEq

/-- What the range analysis renders: the combined cleaned table and the
two trend outcomes. -/
structure RangeView where
  combined : List Row
  oee : TrendOutcome
  prodTrend : TrendOutcome
deriving DecidableEq

/-- The equipment labels of the OEE trend filter (source line 141). -/
def oeeLabels : List String := ["Pellet-I", "Pellet-II", "Drier", "Chipper I", "Chipper II"]

/-- The OEE trend rows (source lines 140-141): Standard below one, then
Particulars among the five equipment labels. -/
def oeeTrendRows (combined : List Row) : List Row :=
  (combined.filter (fun r => cellLtOneB r.standard)).filter
    (fun r => oeeLabels.contains r.particulars)

/-- The production trend rows (source line 157). -/
def prodTrendRows (combined : List Row) : List Row :=
  combined.filter (fun r => r.particulars == "Production target")

/-- The rendered view over the combined cleaned table: each trend section
shows a chart over its filtered rows when they are nonempty, and the
"no data available" notice otherwise (lines 143-150 and 158-167). -/
def mkRangeView (combined : List Row) : RangeView :=
  { combined := combined
    oee :=
      if (oeeTrendRows combined).isEmpty then TrendOutcome.noData
      else TrendOutcome.chart (oeeTrendRows combined)
    prodTrend :=
      if (prodTrendRows combined).isEmpty then TrendOutcome.noData
      else TrendOutcome.chart (prodTrendRows combined) }

/-- `display_date_range_analysis`: with no records it only warns (line
120); otherwise it concatenates the tables (a fresh frame, line 128),
cleans the copy, and reports each trend as a chart or as "no data".  The
second component is the record list after the call: the records are not
written to. -/
def displayDateRangeAnalysis (records : List DailyRecord) :
    Option RangeView × List DailyRecord :=
  match records with
  | [] => (none, [])
  | _ :: _ =>
    (some (mkRangeView (cleanTable ((records.map (fun rec => rec.df)).flatten))), records)

/-! ### Digit-string lemmas -/

theorem charVal_digitChar (d : ℕ) (h : d < 10) : charVal (Nat.digitChar d) = d := by
  interval_cases d <;> rfl

theorem isDigit_digitChar (d : ℕ) (h : d < 10) : (Nat.digitChar d).isDigit = true := by
  interval_cases d <;> rfl

theorem parseNatChars_append_one (l : List Char) (c : Char) :
    parseNatChars (l ++ [c]) = 10 * parseNatChars l + charVal c := by
  unfold parseNatChars
  rw [List.foldl_append]
  rfl

theorem natToCharsAux_digits (fuel : ℕ) :
    ∀ n, ∀ c ∈ natToCharsAux fuel n, c.isDigit = true := by
  induction fuel with
  | zero => intro n c hc; simp [natToCharsAux] at hc
  | succ fuel ih =>
    intro n c hc
    by_cases h0 : n = 0
    · simp [natToCharsAux, h0] at hc
    · simp only [natToCharsAux, if_neg h0, List.mem_append, List.mem_singleton] at hc
      rcases hc with hc | hc
      · exact ih _ c hc
      · subst hc; exact isDigit_digitChar _ (Nat.mod_lt _ (by norm_num))

theorem parse_natToCharsAux (fuel : ℕ) :
    ∀ n, n ≤ fuel → parseNatChars (natToCharsAux fuel n) = n := by
  induction fuel with
  | zero =>
    intro n hn
    have : n = 0 := Nat.le_zero.mp hn
    subst this; rfl
  | succ fuel ih =>
    intro n hn
    by_cases h0 : n = 0
    · subst h0; simp [natToCharsAux, parseNatChars]
    · have hdiv : n / 10 ≤ fuel := by
        have : n / 10 < n := Nat.div_lt_self (Nat.pos_of_ne_zero h0) (by norm_num)
        omega
      simp only [natToCharsAux, if_neg h0]
      rw [parseNatChars_append_one, ih _ hdiv,
        charVal_digitChar _ (Nat.mod_lt _ (by norm_num))]
      omega

theorem parse_natToChars (n : ℕ) : parseNatChars (natToChars n) = n := by
  by_cases h0 : n = 0
  · subst h0; rfl
  · simp only [natToChars, if_neg h0]
    exact parse_natToCharsAux n n le_rfl

theorem natToChars_digits (n : ℕ) : ∀ c ∈ natToChars n, c.isDigit = true := by
  intro c hc
  by_cases h0 : n = 0
  · subst h0; simp [natToChars] at hc; subst hc; rfl
  · simp only [natToChars, if_neg h0] at hc
    exact natToCharsAux_digits n n c hc

theorem natToChars_ne_nil (n : ℕ) : natToChars n ≠ [] := by
  by_cases h0 : n = 0
  · subst h0; simp [natToChars]
  · simp only [natToChars, if_neg h0]
    intro hnil
    have := parse_natToCharsAux n n le_rfl
    rw [hnil] at this
    exact h0 (by simpa [parseNatChars] using this.symm)

theorem fracChars_length (k : ℕ) : ∀ m, (fracChars k m).length = k := by
  induction k with
  | zero => intro m; rfl
  | succ k ih => intro m; simp [fracChars, ih]

theorem fracChars_digits (k : ℕ) : ∀ m, ∀ c ∈ fracChars k m, c.isDigit = true := by
  induction k with
  | zero => intro m c hc; simp [fracChars] at hc
  | succ k ih =>
    intro m c hc
    simp only [fracChars, List.mem_append, List.mem_singleton] at hc
    rcases hc with hc | hc
    · exact ih _ c hc
    · subst hc; exact isDigit_digitChar _ (Nat.mod_lt _ (by norm_num))

theorem parse_fracChars (k : ℕ) : ∀ m, m < 10 ^ k → parseNatChars (fracChars k m) = m := by
  induction k with
  | zero =>
    intro m hm
    have : m = 0 := by simpa using hm
    subst this; rfl
  | succ k ih =>
    intro m hm
    have hdiv : m / 10 < 10 ^ k := by
      have h10 : (0:ℕ) < 10 := by norm_num
      rw [Nat.div_lt_iff_lt_mul h10]
      calc m < 10 ^ (k + 1) := hm
        _ = 10 ^ k * 10 := by ring
    simp only [fracChars]
    rw [parseNatChars_append_one, ih _ hdiv,
      charVal_digitChar _ (Nat.mod_lt _ (by norm_num))]
    omega

/-! ### takeWhile / dropWhile on digit runs -/

theorem takeWhile_all_digits (A : List Char) (hA : ∀ c ∈ A, Char.isDigit c = true) :
    A.takeWhile Char.isDigit = A ∧ A.dropWhile Char.isDigit = [] := by
  induction A with
  | nil => exact ⟨rfl, rfl⟩
  | cons a A ih =>
    have ha : a.isDigit = true := hA a (by simp)
    have ih' := ih (fun c hc => hA c (by simp [hc]))
    constructor
    · simp [List.takeWhile_cons, ha, ih'.1]
    · simp [List.dropWhile_cons, ha, ih'.2]

theorem takeWhile_digits_append (A : List Char) (b : Char) (B : List Char)
    (hA : ∀ c ∈ A, Char.isDigit c = true) (hb : b.isDigit = false) :
    (A ++ b :: B).takeWhile Char.isDigit = A ∧
      (A ++ b :: B).dropWhile Char.isDigit = b :: B := by
  induction A with
  | nil => simp [List.takeWhile_cons, List.dropWhile_cons, hb]
  | cons a A ih =>
    have ha : a.isDigit = true := hA a (by simp)
    have ih' := ih (fun c hc => hA c (by simp [hc]))
    constructor
    · simp [List.takeWhile_cons, ha, ih'.1]
    · simp [List.dropWhile_cons, ha, ih'.2]

/-! ### Canonical decimal pairs -/

theorem canon_zero (n : ℕ) : canon (n, 0) = (n, 0) := rfl

theorem canon_succ (n k : ℕ) :
    canon (n, k + 1) = if n % 10 = 0 then canon (n / 10, k) else (n, k + 1) := rfl

theorem canon_idem (k : ℕ) : ∀ n, canon (canon (n, k)) = canon (n, k) := by
  induction k with
  | zero => intro n; rw [canon_zero, canon_zero]
  | succ k ih =>
    intro n
    by_cases h : n % 10 = 0
    · rw [canon_succ, if_pos h]; exact ih (n / 10)
    · have hc : canon (n, k + 1) = (n, k + 1) := by rw [canon_succ, if_neg h]
      rw [hc]; exact hc

theorem canon_idem_pair (p : ℕ × ℕ) : canon (canon p) = canon p := by
  obtain ⟨n, k⟩ := p
  exact canon_idem k n

theorem toRatP_canon (k : ℕ) : ∀ n, toRatP (canon (n, k)) = toRatP (n, k) := by
  induction k with
  | zero => intro n; rw [canon_zero]
  | succ k ih =>
    intro n
    by_cases h : n % 10 = 0
    · have hdvd : 10 ∣ n := Nat.dvd_of_mod_eq_zero h
      have hcast : ((n / 10 : ℕ) : ℚ) * 10 = (n : ℚ) := by
        exact_mod_cast Nat.div_mul_cancel hdvd
      rw [canon_succ, if_pos h, ih (n / 10)]
      simp only [toRatP]
      rw [pow_succ, div_mul_eq_div_div_swap]
      congr 1
      rw [eq_div_iff (by norm_num : (10:ℚ) ≠ 0)]
      exact hcast
    · rw [canon_succ, if_neg h]

/-! ### Roundtrip: rendering a float and re-extracting it -/

theorem matchNum_split (A B : List Char) (hA : ∀ c ∈ A, Char.isDigit c = true)
    (hB : ∀ c ∈ B, Char.isDigit c = true) :
    matchNum (A ++ '.' :: B) = A ++ '.' :: B := by
  have hsplit := takeWhile_digits_append A '.' B hA (by rfl)
  simp only [matchNum, hsplit.1, hsplit.2, if_pos rfl, if_true,
    (takeWhile_all_digits B hB).1]

theorem extractNum_cons_digits (A : List Char) (rest : List Char)
    (hA : A ≠ []) (hdig : ∀ c ∈ A, Char.isDigit c = true) :
    extractNum (A ++ rest) = some (matchNum (A ++ rest)) := by
  obtain ⟨c, cs, hc⟩ : ∃ c cs, A = c :: cs := by
    cases A with
    | nil => exact absurd rfl hA
    | cons c cs => exact ⟨c, cs, rfl⟩
  subst hc
  have hcdig : c.isDigit = true := hdig c (by simp)
  simp only [List.cons_append, extractNum, hcdig, if_pos]
  rfl

theorem extractNum_render (n k : ℕ) :
    extractNum (renderPair n k) = some (renderPair n k) := by
  by_cases hk : k = 0
  · subst hk
    have hr : renderPair n 0 = natToChars n ++ '.' :: ['0'] := rfl
    rw [hr, extractNum_cons_digits (natToChars n) ('.' :: ['0'])
      (natToChars_ne_nil n) (natToChars_digits n)]
    rw [matchNum_split (natToChars n) ['0'] (natToChars_digits n)
      (by intro x hx; simp at hx; subst hx; rfl)]
  · simp only [renderPair, if_neg hk]
    rw [extractNum_cons_digits (natToChars (n / 10 ^ k)) ('.' :: fracChars k (n % 10 ^ k))
      (natToChars_ne_nil _) (natToChars_digits _)]
    rw [matchNum_split (natToChars (n / 10 ^ k)) (fracChars k (n % 10 ^ k))
      (natToChars_digits _) (fracChars_digits k _)]

theorem parseDec_render (n k : ℕ) : parseDec (renderPair n k) = canon (n, k) := by
  by_cases hk : k = 0
  · subst hk
    have hr : renderPair n 0 = natToChars n ++ '.' :: ['0'] := rfl
    rw [hr]
    have hsplit := takeWhile_digits_append (natToChars n) '.' ['0']
      (natToChars_digits n) (by rfl)
    simp only [parseDec, hsplit.1, hsplit.2, if_pos rfl, if_true]
    have hp0 : parseNatChars ['0'] = 0 := rfl
    rw [parse_natToChars, hp0]
    have hlen : (['0'] : List Char).length = 1 := rfl
    rw [hlen]
    have h10 : n * 10 ^ 1 + 0 = n * 10 := by ring
    rw [h10]
    have h01 : (1 : ℕ) = 0 + 1 := rfl
    rw [h01, canon_succ, if_pos (Nat.mul_mod_left n 10),
      Nat.mul_div_cancel n (by norm_num : (0:ℕ) < 10), canon_zero]
  · simp only [renderPair, if_neg hk]
    have hsplit := takeWhile_digits_append (natToChars (n / 10 ^ k)) '.'
      (fracChars k (n % 10 ^ k)) (natToChars_digits _) (by rfl)
    simp only [parseDec, hsplit.1, hsplit.2, if_pos rfl, if_true]
    rw [parse_natToChars, fracChars_length,
      parse_fracChars k _ (Nat.mod_lt _ (Nat.pos_pow_of_pos k (by norm_num)))]
    have hnd : n / 10 ^ k * 10 ^ k + n % 10 ^ k = n := Nat.div_add_mod' n (10 ^ k)
    rw [hnd]

/-! ### Behaviour of the normalization -/

theorem extractNum_minus (l : List Char) : extractNum ('-' :: l) = extractNum l := rfl

theorem parseDec_canon (m : List Char) : canon (parseDec m) = parseDec m := by
  cases h : m.dropWhile Char.isDigit with
  | nil => simp only [parseDec, h]; exact canon_idem_pair _
  | cons d fp =>
    simp only [parseDec, h]
    by_cases hd : d = '.'
    · rw [if_pos hd]; exact canon_idem_pair _
    · rw [if_neg hd]; exact canon_idem_pair _

theorem canon_zero_mantissa : ∀ k, canon (0, k) = (0, 0) := by
  intro k
  induction k with
  | zero => rfl
  | succ k ih =>
    rw [canon_succ, if_pos (by norm_num)]
    simpa using ih

/-- Inside the plain-rendering regime, str() of a float re-extracts and
re-parses to the same (canonical) value. -/
theorem pyRepr_plain (n k : ℕ) (h : plainB n k = true) :
    extractNum (pyRepr n k) = some (pyRepr n k)
      ∧ parseDec (pyRepr n k) = canon (n, k) := by
  by_cases hn : n = 0
  · subst hn
    have h0 : pyRepr 0 k = renderPair 0 0 := rfl
    rw [h0]
    refine ⟨extractNum_render 0 0, ?_⟩
    rw [parseDec_render 0 0, canon_zero_mantissa k]
    rfl
  · have hcond : k ≤ (natToChars n).length + 3 ∧ (natToChars n).length ≤ k + 16 := by
      unfold plainB at h
      simp only [Bool.or_eq_true, beq_iff_eq, hn, false_or, Bool.and_eq_true,
        decide_eq_true_eq] at h
      exact h
    have hr : pyRepr n k = renderPair n k := by
      unfold pyRepr
      rw [if_neg hn, if_pos hcond]
    rw [hr]
    exact ⟨extractNum_render n k, parseDec_render n k⟩

theorem normalizeCell_vnum_plain (neg : Bool) (n k : ℕ) (h : plainB n k = true) :
    normalizeCell (Cell.vnum neg n k)
      = Cell.vnum false (canon (n, k)).1 (canon (n, k)).2 := by
  obtain ⟨he, hp⟩ := pyRepr_plain n k h
  cases neg with
  | false =>
    simp only [normalizeCell, cellToChars, Bool.false_eq_true, if_false, he, hp]
  | true =>
    simp only [normalizeCell, cellToChars, if_true, extractNum_minus, he, hp]

theorem normalizeCell_vnan : normalizeCell Cell.vnan = Cell.vnan := rfl

/-- The minus sign never reaches the extraction, whatever the magnitude:
a negative float cell normalizes exactly as its positive counterpart. -/
theorem normalizeCell_neg_eq_pos (n k : ℕ) :
    normalizeCell (Cell.vnum true n k) = normalizeCell (Cell.vnum false n k) := by
  simp only [normalizeCell, cellToChars, if_true, Bool.false_eq_true, if_false,
    extractNum_minus]

/-- Every value the normalization produces is canonical. -/
theorem normalizeCell_canonical (c : Cell) (n k : ℕ)
    (hc : normalizeCell c = Cell.vnum false n k) : canon (n, k) = (n, k) := by
  cases hx : extractNum (cellToChars c) with
  | none =>
    have hnan : normalizeCell c = Cell.vnan := by simp only [normalizeCell, hx]
    rw [hnan] at hc
    exact absurd hc (by simp)
  | some m =>
    have h1 : normalizeCell c = Cell.vnum false (parseDec m).1 (parseDec m).2 := by
      simp only [normalizeCell, hx]
    rw [h1] at hc
    injection hc with h2 h3 h4
    have hpair : ((parseDec m).1, (parseDec m).2) = parseDec m := rfl
    rw [← h3, ← h4, hpair, parseDec_canon]

/-- Re-normalizing is a no-op on every cell whose normalized value
renders in plain decimal. -/
theorem normalizeCell_idem_plain (c : Cell) (n k : ℕ)
    (hc : normalizeCell c = Cell.vnum false n k) (h : plainB n k = true) :
    normalizeCell (normalizeCell c) = normalizeCell c := by
  have hcanon : canon (n, k) = (n, k) := normalizeCell_canonical c n k hc
  rw [hc, normalizeCell_vnum_plain false n k h, hcanon]

/-- Re-normalizing is a no-op on every cell that normalizes to NaN. -/
theorem normalizeCell_idem_vnan (c : Cell)
    (hc : normalizeCell c = Cell.vnan) :
    normalizeCell (normalizeCell c) = normalizeCell c := by
  rw [hc]
  exact normalizeCell_vnan

theorem cellRat_normalizeCell_vnum_plain (neg : Bool) (n k : ℕ)
    (h : plainB n k = true) :
    cellRat? (normalizeCell (Cell.vnum neg n k)) = some (toRatP (n, k)) := by
  rw [normalizeCell_vnum_plain neg n k h]
  show some (((n, k) |> canon).1 / 10 ^ ((n, k) |> canon).2 : ℚ) = some (toRatP (n, k))
  rw [← toRatP_canon k n]
  rfl

theorem cellLtOneB_vnan : cellLtOneB Cell.vnan = false := rfl

theorem cellLtOneB_vstr (s : String) : cellLtOneB (Cell.vstr s) = false := rfl

/-- The float test `value < 1` on a decimal pair, computed on the
representation: a negative value is always below one; a nonnegative
`n / 10^k` is below one exactly when `n < 10^k`. -/
theorem cellLtOneB_vnum (neg : Bool) (n k : ℕ) :
    cellLtOneB (Cell.vnum neg n k) = (neg || decide (n < 10 ^ k)) := by
  cases neg with
  | true =>
    have hlt : -(n : ℚ) / 10 ^ k < 1 := by
      have h1 : -(n : ℚ) / 10 ^ k ≤ 0 := by
        apply div_nonpos_of_nonpos_of_nonneg
        · simp
        · positivity
      linarith
    simp [cellLtOneB, cellRat?, hlt]
  | false =>
    have hiff : ((n : ℚ) / 10 ^ k < 1) ↔ (n < 10 ^ k) := by
      rw [div_lt_one (by positivity : (0:ℚ) < 10 ^ k)]
      constructor
      · intro h; exact_mod_cast h
      · intro h; exact_mod_cast h
    simp only [cellLtOneB, cellRat?, Bool.false_or]
    simp [hiff]

/-! ### Claim C1 (corrected): idempotence holds only for plain renderings -/

/-- Counterexample to C1 as stated: the normalization is not idempotent
on every input.  The text 0.00005 normalizes to the float 5e-05, whose
coercion back to text is the scientific rendering 5e-05; the digit
pattern then extracts only the mantissa, so re-normalizing yields 5.0,
a different value. -/
theorem normalizeCell_not_idempotent :
    normalizeCell (Cell.vstr "0.00005") = Cell.vnum false 5 5
    ∧ cellToChars (Cell.vnum false 5 5) = "5e-05".toList
    ∧ normalizeCell (normalizeCell (Cell.vstr "0.00005")) = Cell.vnum false 5 0
    ∧ normalizeCell (normalizeCell (Cell.vstr "0.00005"))
        ≠ normalizeCell (Cell.vstr "0.00005") := by decide

/-- Claim C1, amended: numeric normalization coerces each value to text,
extracts the first decimal-number substring, parses it as a floating
value, and maps non-matching content to NaN (the definition of
normalizeCell); it is idempotent on every cell whose normalized value is
NaN or renders in plain decimal (zero, or decimal exponent in [-4, 16)),
though not on values whose rendering is scientific.  The quoted examples
hold: 12.5 TPD normalizes to 12.5, clean 12.5 normalizes to itself, and
N/A normalizes to the missing-value marker. -/
theorem normalizeCell_idempotent_plain :
    (∀ (c : Cell) (n k : ℕ), normalizeCell c = Cell.vnum false n k →
        plainB n k = true → normalizeCell (normalizeCell c) = normalizeCell c)
    ∧ (∀ c : Cell, normalizeCell c = Cell.vnan →
        normalizeCell (normalizeCell c) = normalizeCell c)
    ∧ normalizeCell (Cell.vstr "12.5 TPD") = Cell.vnum false 125 1
    ∧ cellRat? (Cell.vnum false 125 1) = some (12.5 : ℚ)
    ∧ normalizeCell (Cell.vnum false 125 1) = Cell.vnum false 125 1
    ∧ normalizeCell (Cell.vstr "N/A") = Cell.vnan := by
  refine ⟨fun c n k hc h => normalizeCell_idem_plain c n k hc h,
    fun c hc => normalizeCell_idem_vnan c hc, by decide, ?_, by decide, by decide⟩
  show some ((125 : ℚ) / 10 ^ 1) = some (12.5 : ℚ)
  norm_num

/-- Witness for amended C1: the normalization of 12.5 TPD lands on 12.5,
a plainly-rendered value, and re-normalizing it is a no-op. -/
theorem normalizeCell_idempotent_plain_witness :
    normalizeCell (normalizeCell (Cell.vstr "12.5 TPD"))
      = normalizeCell (Cell.vstr "12.5 TPD") :=
  normalizeCell_idempotent_plain.1 (Cell.vstr "12.5 TPD") 125 1 (by decide) (by decide)

/-! ### Claim C10 (corrected): signs are discarded, magnitudes survive
only when rendered plain -/

/-- Counterexample to C10 as stated: for the negative float -5e-05 the
extracted number is 5.0, not the absolute magnitude 5e-05 — the text
coercion renders -5e-05, the scan skips the sign, and the pattern takes
only the mantissa digit. -/
theorem normalizeCell_sign_small_magnitude :
    cellToChars (Cell.vnum true 5 5) = "-5e-05".toList
    ∧ normalizeCell (Cell.vnum true 5 5) = Cell.vnum false 5 0
    ∧ cellRat? (Cell.vnum false 5 0) = some (5 : ℚ)
    ∧ cellRat? (Cell.vnum true 5 5) = some (-(5 : ℚ) / 10 ^ 5)
    ∧ (5 : ℚ) ≠ |(-(5 : ℚ) / 10 ^ 5)| := by
  refine ⟨by decide, by decide, ?_, rfl, ?_⟩
  · show some ((5 : ℚ) / 10 ^ 0) = some (5 : ℚ)
    norm_num
  · rw [show (-(5 : ℚ) / 10 ^ 5) = -(5 / 10 ^ 5) by ring, abs_neg,
      abs_of_nonneg (by norm_num : (0:ℚ) ≤ 5 / 10 ^ 5)]
    norm_num

/-- Claim C10, amended: the extraction pattern matches only unsigned
decimal digits, so the sign of a value is always discarded — a leading
minus sign is skipped by the scan and a negative float cell normalizes
exactly as its positive counterpart; the extracted number equals the
absolute magnitude whenever that magnitude renders in plain decimal (as
the text -3.5, which normalizes to 3.5), while a magnitude rendered in
scientific notation collapses to its mantissa instead. -/
theorem normalizeCell_discards_sign :
    (∀ t : List Char, extractNum ('-' :: t) = extractNum t)
    ∧ (∀ n k : ℕ, normalizeCell (Cell.vnum true n k) = normalizeCell (Cell.vnum false n k))
    ∧ (∀ n k : ℕ, plainB n k = true →
        cellRat? (normalizeCell (Cell.vnum true n k)) = some (toRatP (n, k)))
    ∧ normalizeCell (Cell.vstr "-3.5") = Cell.vnum false 35 1
    ∧ cellRat? (Cell.vnum false 35 1) = some (3.5 : ℚ)
    ∧ cellRat? (Cell.vnum true 35 1) = some (-3.5 : ℚ) := by
  refine ⟨fun t => extractNum_minus t,
    fun n k => normalizeCell_neg_eq_pos n k,
    fun n k h => cellRat_normalizeCell_vnum_plain true n k h,
    by decide, ?_, ?_⟩
  · show some ((35 : ℚ) / 10 ^ 1) = some (3.5 : ℚ)
    norm_num
  · show some (-(35 : ℚ) / 10 ^ 1) = some (-3.5 : ℚ)
    norm_num

/-- Witness for amended C10: the magnitude 3.5 renders plain, and the
negative cell -3.5 indeed normalizes to the absolute magnitude. -/
theorem normalizeCell_discards_sign_witness :
    cellRat? (normalizeCell (Cell.vnum true 35 1)) = some (toRatP (35, 1)) :=
  normalizeCell_discards_sign.2.2.1 35 1 (by decide)

/-! ### Loader lemmas -/

theorem resolveDate_content (pS pF : String → Option ℕ) (f : SrcFile) (cap : List Char)
    (d : ℕ) (hcap : dateLabelCapture f.firstLine.toList = some cap)
    (hp : pS (String.mk (stripChars cap)) = some d) :
    resolveDate pS pF f = some d := by
  unfold resolveDate
  rw [hcap]
  show (match pS (String.mk (stripChars cap)) with
    | some d => some d
    | none => pF f.name) = some d
  rw [hp]

theorem resolveDate_content_parse_fails (pS pF : String → Option ℕ) (f : SrcFile)
    (cap : List Char) (hcap : dateLabelCapture f.firstLine.toList = some cap)
    (hp : pS (String.mk (stripChars cap)) = none) :
    resolveDate pS pF f = pF f.name := by
  unfold resolveDate
  rw [hcap]
  show (match pS (String.mk (stripChars cap)) with
    | some d => some d
    | none => pF f.name) = pF f.name
  rw [hp]

theorem resolveDate_no_label (pS pF : String → Option ℕ) (f : SrcFile)
    (hcap : dateLabelCapture f.firstLine.toList = none) :
    resolveDate pS pF f = pF f.name := by
  unfold resolveDate
  rw [hcap]

theorem load_skips_unresolved (pS pF : String → Option ℕ) (fs₁ fs₂ : List SrcFile)
    (f : SrcFile) (hf : resolveDate pS pF f = none) :
    loadAndPreprocessData pS pF (fs₁ ++ f :: fs₂)
      = loadAndPreprocessData pS pF (fs₁ ++ fs₂) := by
  unfold loadAndPreprocessData
  congr 1
  rw [List.filterMap_append, List.filterMap_append, List.filterMap_cons]
  have hnone : mkRecord pS pF f = none := by
    unfold mkRecord
    rw [hf]
    rfl
  rw [hnone]

/-! ### Stability of the sort -/

theorem filter_date_orderedInsert (d : ℕ) (x : DailyRecord) (l : List DailyRecord) :
    (List.orderedInsert recLE x l).filter (fun r => r.date == d)
      = if x.date = d then x :: l.filter (fun r => r.date == d)
        else l.filter (fun r => r.date == d) := by
  induction l with
  | nil =>
    by_cases hx : x.date = d
    · have hbt : (x.date == d) = true := beq_iff_eq.mpr hx
      rw [if_pos hx]
      show List.filter (fun r => r.date == d) [x] = _
      rw [List.filter_cons, hbt]
      simp
    · have hbf : (x.date == d) = false := beq_eq_false_iff_ne.mpr hx
      rw [if_neg hx]
      show List.filter (fun r => r.date == d) [x] = _
      rw [List.filter_cons, hbf]
      simp
  | cons y l ih =>
    by_cases hr : recLE x y
    · rw [List.orderedInsert_of_le recLE l hr]
      by_cases hx : x.date = d
      · have hbt : (x.date == d) = true := beq_iff_eq.mpr hx
        rw [if_pos hx, List.filter_cons, hbt]
        simp
      · have hbf : (x.date == d) = false := beq_eq_false_iff_ne.mpr hx
        rw [if_neg hx, List.filter_cons, hbf]
        simp
    · have hoi : List.orderedInsert recLE x (y :: l)
          = y :: List.orderedInsert recLE x l := by
        simp [List.orderedInsert, hr]
      rw [hoi]
      by_cases hx : x.date = d
      · have hylt : y.date < x.date := by
          unfold recLE at hr
          omega
        have hy : (y.date == d) = false := beq_eq_false_iff_ne.mpr (by omega)
        rw [if_pos hx]
        rw [List.filter_cons, hy]
        rw [List.filter_cons, hy]
        simp only [Bool.false_eq_true, if_false]
        rw [ih, if_pos hx]
      · rw [if_neg hx]
        rw [List.filter_cons, List.filter_cons]
        rw [ih, if_neg hx]

theorem filter_date_insertionSort (d : ℕ) (L : List DailyRecord) :
    (List.insertionSort recLE L).filter (fun r => r.date == d)
      = L.filter (fun r => r.date == d) := by
  induction L with
  | nil => rfl
  | cons x L ih =>
    show (List.orderedInsert recLE x (List.insertionSort recLE L)).filter _ = _
    rw [filter_date_orderedInsert]
    by_cases hx : x.date = d
    · rw [if_pos hx, ih, List.filter_cons]
      have hbt : (x.date == d) = true := beq_iff_eq.mpr hx
      rw [hbt]
      simp
    · rw [if_neg hx, ih, List.filter_cons]
      have hbf : (x.date == d) = false := beq_eq_false_iff_ne.mpr hx
      rw [hbf]
      simp

/-! ### Claim C2: per-file date resolution order -/

/-- Claim C2:  For every file, the date is resolved content-label first: a
successful extraction of the Date: capture and a successful parse give
that date; if the extraction or the parse fails, the filename is handed
to the fuzzy parse; if that also yields nothing, the file contributes no
record to the collection (it is skipped). -/
theorem date_resolution_order (pS pF : String → Option ℕ) (f : SrcFile) :
    (∀ cap d, dateLabelCapture f.firstLine.toList = some cap →
        pS (String.mk (stripChars cap)) = some d → resolveDate pS pF f = some d)
    ∧ (∀ cap, dateLabelCapture f.firstLine.toList = some cap →
        pS (String.mk (stripChars cap)) = none → resolveDate pS pF f = pF f.name)
    ∧ (dateLabelCapture f.firstLine.toList = none → resolveDate pS pF f = pF f.name)
    ∧ (∀ fs₁ fs₂, resolveDate pS pF f = none →
        loadAndPreprocessData pS pF (fs₁ ++ f :: fs₂)
          = loadAndPreprocessData pS pF (fs₁ ++ fs₂)) :=
  ⟨fun cap d hcap hp => resolveDate_content pS pF f cap d hcap hp,
   fun cap hcap hp => resolveDate_content_parse_fails pS pF f cap hcap hp,
   fun hcap => resolveDate_no_label pS pF f hcap,
   fun fs₁ fs₂ hf => load_skips_unresolved pS pF fs₁ fs₂ f hf⟩

/-- Witness for C2 at concrete inputs: a file whose first line carries a
parsable Date: label resolves to the content date, and a file resolving
to no date at all contributes no record. -/
theorem date_resolution_order_witness :
    resolveDate (fun s => if s = "12/03/2024" then some 20240312 else none)
        (fun _ => none)
        ⟨"report.csv", "Date: 12/03/2024, Shift: A", []⟩ = some 20240312
    ∧ loadAndPreprocessData (fun _ => none) (fun _ => none)
        ([] ++ ⟨"nodate.csv", "no header", []⟩ :: []) =
      loadAndPreprocessData (fun _ => none) (fun _ => none) ([] ++ []) := by
  constructor
  · exact (date_resolution_order _ _ _).1 ("12/03/2024".toList) 20240312
      (by decide) (by decide)
  · exact (date_resolution_order (fun _ => none) (fun _ => none) _).2.2.2 [] []
      (by decide)

/-! ### Claim C3: the collection is sorted ascending, ties in discovery order -/

/-- Claim C3:  For every directory listing and any parser behaviour, the loaded
collection is sorted ascending by resolved date; it is a permutation of
the records taken in discovery order, and for each date the records of
that date appear exactly as in discovery order (stability: ties are both
retained, in file-enumeration order). -/
theorem load_sorted_and_stable (pS pF : String → Option ℕ) (files : List SrcFile) :
    List.Sorted recLE (loadAndPreprocessData pS pF files)
    ∧ (loadAndPreprocessData pS pF files).Perm (files.filterMap (mkRecord pS pF))
    ∧ ∀ d, (loadAndPreprocessData pS pF files).filter (fun r => r.date == d)
        = (files.filterMap (mkRecord pS pF)).filter (fun r => r.date == d) :=
  ⟨List.sorted_insertionSort recLE _,
   List.perm_insertionSort recLE _,
   fun d => filter_date_insertionSort d _⟩

/-! ### First-match lookups -/

theorem find?_append_first {α : Type} (p : α → Bool) (pre : List α) (x : α)
    (post : List α) (hpre : ∀ r ∈ pre, p r = false) (hx : p x = true) :
    (pre ++ x :: post).find? p = some x := by
  induction pre with
  | nil => exact List.find?_cons_of_pos post hx
  | cons a pre ih =>
    have ha : p a = false := hpre a (by simp)
    rw [List.cons_append, List.find?_cons_of_neg _ (by simp [ha])]
    exact ih (fun r hr => hpre r (by simp [hr]))

/-! ### Claim C4: OEE from the first Pellet row with Standard below one -/

/-- Claim C4:  The single-day summary takes each equipment OEE from the first
row of the cleaned table whose Particulars equals the equipment label and
whose Standard is below one, and multiplies that row's Actual by 100:
whenever the cleaned table splits as pre ++ r1 :: post with no row of pre
satisfying the Pellet-I test and r1 satisfying it, any produced summary
carries r1's Actual times 100 as the Pellet-I OEE. -/
theorem singleDay_oee_first_match (rec : DailyRecord) (pre post : List Row)
    (r1 : Row) (s : Summary)
    (hsplit : cleanTable rec.df = pre ++ r1 :: post)
    (hpre : ∀ r ∈ pre, (r.particulars == "Pellet-I" && cellLtOneB r.standard) = false)
    (hr1 : (r1.particulars == "Pellet-I" && cellLtOneB r1.standard) = true)
    (hs : (displaySingleDayAnalysis rec).1 = some s) :
    s.oeePelletI = (cellRat? r1.actual).map (fun x => x * 100) := by
  have hfind : (cleanTable rec.df).find?
      (fun r => r.particulars == "Pellet-I" && cellLtOneB r.standard) = some r1 := by
    rw [hsplit]
    exact find?_append_first _ pre r1 post hpre hr1
  have hs' : summarizeCleaned (cleanTable rec.df) = some s := hs
  unfold summarizeCleaned at hs'
  rw [hfind] at hs'
  cases hPr : (cleanTable rec.df).find? (fun r => r.particulars == "Production target") with
  | none => rw [hPr] at hs'; exact absurd hs' (by simp)
  | some pr =>
    cases hP2 : (cleanTable rec.df).find?
        (fun r => r.particulars == "Pellet-II" && cellLtOneB r.standard) with
    | none => rw [hPr, hP2] at hs'; exact absurd hs' (by simp)
    | some p2 =>
      rw [hPr, hP2] at hs'
      have hss := Option.some.inj hs'
      rw [← hss]

/-! ### Claim C5: the summary is all-or-nothing -/

/-- Claim C5:  If any required first-match lookup of the single-day summary
comes up empty (the Production target row, or an equipment OEE row under
the Standard-below-one rule), the whole summary is reported incomplete:
no metric at all is produced. -/
theorem singleDay_all_or_nothing (rec : DailyRecord)
    (h : (cleanTable rec.df).find? (fun r => r.particulars == "Production target") = none
      ∨ (cleanTable rec.df).find?
          (fun r => r.particulars == "Pellet-I" && cellLtOneB r.standard) = none
      ∨ (cleanTable rec.df).find?
          (fun r => r.particulars == "Pellet-II" && cellLtOneB r.standard) = none) :
    (displaySingleDayAnalysis rec).1 = none := by
  show summarizeCleaned (cleanTable rec.df) = none
  unfold summarizeCleaned
  rcases h with h | h | h <;>
    cases h1 : (cleanTable rec.df).find? (fun r => r.particulars == "Production target") <;>
    cases h2 : (cleanTable rec.df).find?
        (fun r => r.particulars == "Pellet-I" && cellLtOneB r.standard) <;>
    cases h3 : (cleanTable rec.df).find?
        (fun r => r.particulars == "Pellet-II" && cellLtOneB r.standard) <;>
    simp_all

/-- Witness for C5: a record with an empty table has no Production target
row, and indeed the summary is reported incomplete with no metric. -/
theorem singleDay_all_or_nothing_witness :
    (displaySingleDayAnalysis ⟨7, []⟩).1 = none :=
  singleDay_all_or_nothing ⟨7, []⟩ (Or.inl (by decide))

/-! ### A concrete day of data (the specification's scenario) -/

/-- The Production target line of the scenario: Standard 500, Actual 523.4. -/
def rowProd : Row := ⟨"Production target", Cell.vnum false 500 0, Cell.vnum false 5234 1, 20240312⟩

/-- A Pellet-I OEE line: Standard 0.85 (below one), Actual 0.78. -/
def rowP1 : Row := ⟨"Pellet-I", Cell.vnum false 85 2, Cell.vnum false 78 2, 20240312⟩

/-- A Pellet-II OEE line: Standard 0.9 (below one), Actual 0.81. -/
def rowP2 : Row := ⟨"Pellet-II", Cell.vnum false 9 1, Cell.vnum false 81 2, 20240312⟩

/-- The scenario table. -/
def sampleRows : List Row := [rowProd, rowP1, rowP2]

/-- The scenario record, dated by the content header of the file. -/
def sampleRecord : DailyRecord := ⟨20240312, sampleRows⟩

/-- The summary the code computes on the scenario table. -/
def sampleSummary : Summary :=
  { prodActual := some ((5234 : ℚ) / 10 ^ 1)
    prodStandard := some ((500 : ℚ) / 10 ^ 0)
    variance := some (((5234 : ℚ) / 10 ^ 1 - (500 : ℚ) / 10 ^ 0)
      / ((500 : ℚ) / 10 ^ 0) * 100)
    oeePelletI := some ((78 : ℚ) / 10 ^ 2 * 100)
    oeePelletII := some ((81 : ℚ) / 10 ^ 2 * 100) }

theorem sample_clean : cleanTable sampleRows = sampleRows := by decide

theorem sample_find_p1 :
    sampleRows.find? (fun r => r.particulars == "Pellet-I" && cellLtOneB r.standard)
      = some rowP1 := by
  have hp : ((fun r => r.particulars == "Pellet-I" && cellLtOneB r.standard) rowP1)
      = true := by
    show (rowP1.particulars == "Pellet-I" && cellLtOneB rowP1.standard) = true
    rw [show rowP1.standard = Cell.vnum false 85 2 from rfl, cellLtOneB_vnum]
    decide
  show List.find? (fun r => r.particulars == "Pellet-I" && cellLtOneB r.standard)
    ([rowProd] ++ rowP1 :: [rowP2]) = some rowP1
  exact find?_append_first _ [rowProd] rowP1 [rowP2]
    (by intro r hr; simp at hr; subst hr; decide) hp

theorem sample_find_p2 :
    sampleRows.find? (fun r => r.particulars == "Pellet-II" && cellLtOneB r.standard)
      = some rowP2 := by
  have hp : ((fun r => r.particulars == "Pellet-II" && cellLtOneB r.standard) rowP2)
      = true := by
    show (rowP2.particulars == "Pellet-II" && cellLtOneB rowP2.standard) = true
    rw [show rowP2.standard = Cell.vnum false 9 1 from rfl, cellLtOneB_vnum]
    decide
  show List.find? (fun r => r.particulars == "Pellet-II" && cellLtOneB r.standard)
    ([rowProd, rowP1] ++ rowP2 :: []) = some rowP2
  refine find?_append_first _ [rowProd, rowP1] rowP2 [] ?_ hp
  intro r hr
  simp at hr
  rcases hr with hr | hr <;> subst hr <;> decide

theorem sample_summarize : summarizeCleaned sampleRows = some sampleSummary := by
  have hfProd : sampleRows.find? (fun r => r.particulars == "Production target")
      = some rowProd := by decide
  unfold summarizeCleaned
  rw [hfProd, sample_find_p1, sample_find_p2]
  rfl

theorem sample_display :
    (displaySingleDayAnalysis sampleRecord).1 = some sampleSummary := by
  show summarizeCleaned (cleanTable sampleRows) = some sampleSummary
  rw [sample_clean]
  exact sample_summarize

/-- Witness for C4 at the concrete scenario: the Pellet-I OEE of the
computed summary is the first matching row's Actual times 100. -/
theorem singleDay_oee_first_match_witness :
    sampleSummary.oeePelletI = (cellRat? rowP1.actual).map (fun x => x * 100) :=
  singleDay_oee_first_match sampleRecord [rowProd] [rowP2] rowP1 sampleSummary
    (by rw [show sampleRecord.df = sampleRows from rfl, sample_clean]; rfl)
    (by intro r hr; simp at hr; subst hr; decide)
    (by rw [show rowP1.standard = Cell.vnum false 85 2 from rfl, cellLtOneB_vnum]; decide)
    sample_display

/-! ### Claim C6: the specification's concrete single-day scenario -/

/-- The CSV body of the scenario file. -/
def scenarioCsv : List CsvRow :=
  [⟨"Production target", Cell.vnum false 500 0, Cell.vnum false 5234 1⟩,
   ⟨"Pellet-I", Cell.vnum false 85 2, Cell.vnum false 78 2⟩,
   ⟨"Pellet-II", Cell.vnum false 9 1, Cell.vnum false 81 2⟩]

/-- The scenario file, whose first line is the Date/Shift header. -/
def scenarioFile : SrcFile := ⟨"report.csv", "Date: 12/03/2024, Shift: A", scenarioCsv⟩

/-- A concrete content-date behaviour standing in for dateutil. -/
def scenarioParse : String → Option ℕ :=
  fun s => if s = "12/03/2024" then some 20240312 else none

/-- Claim C6:  Loading the scenario file resolves the date from the content
header and yields the scenario record; the single-day summary on it
reports production actual 523.4, production standard 500, and a variance
versus target computed as ((actual - standard) / standard) * 100, whose
value is exactly 4.68. -/
theorem scenario_single_day_summary :
    loadAndPreprocessData scenarioParse (fun _ => none) [scenarioFile] = [sampleRecord]
    ∧ (displaySingleDayAnalysis sampleRecord).1 = some sampleSummary
    ∧ sampleSummary.prodActual = some (523.4 : ℚ)
    ∧ sampleSummary.prodStandard = some (500 : ℚ)
    ∧ sampleSummary.variance = some (((523.4 : ℚ) - 500) / 500 * 100)
    ∧ ((523.4 : ℚ) - 500) / 500 * 100 = 4.68 := by
  refine ⟨by decide, sample_display, ?_, ?_, ?_, ?_⟩
  · show some ((5234 : ℚ) / 10 ^ 1) = some (523.4 : ℚ)
    norm_num
  · show some ((500 : ℚ) / 10 ^ 0) = some (500 : ℚ)
    norm_num
  · show some (((5234 : ℚ) / 10 ^ 1 - (500 : ℚ) / 10 ^ 0)
        / ((500 : ℚ) / 10 ^ 0) * 100) = some (((523.4 : ℚ) - 500) / 500 * 100)
    norm_num
  · norm_num

/-! ### Claim C8 (corrected): mutation profile of the analyses -/

/-- A record whose Standard and Actual are raw text. -/
def rawRow : Row := ⟨"Production target", Cell.vstr "500", Cell.vstr "523.4 TPD", 7⟩

/-- The record holding that raw row. -/
def rawRecord : DailyRecord := ⟨7, [rawRow]⟩

/-- Counterexample to C8 as stated: the single-day analysis does not
leave the loaded record's table unchanged — on a record whose Standard
and Actual hold raw text, the record after the call differs from the
record before it (the columns were overwritten in place). -/
theorem singleDay_mutates_record :
    (displaySingleDayAnalysis rawRecord).2 ≠ rawRecord := by decide

/-- Claim C8, amended:  The date-range analysis leaves every loaded record
unchanged (it works on a concatenated copy), but the single-day analysis
overwrites the record's Standard and Actual columns in place with their
normalized values: the record after the call is exactly the record with
its table cleaned, and the rewrite touches no other field (Particulars
and Date are preserved row by row). -/
theorem analyses_mutation_profile :
    (∀ rec : DailyRecord,
      (displaySingleDayAnalysis rec).2 = ⟨rec.date, cleanTable rec.df⟩)
    ∧ (∀ r : Row, (cleanRow r).particulars = r.particulars ∧ (cleanRow r).date = r.date)
    ∧ (∀ records : List DailyRecord, (displayDateRangeAnalysis records).2 = records) := by
  refine ⟨fun rec => rfl, fun r => ⟨rfl, rfl⟩, ?_⟩
  intro records
  cases records with
  | nil => rfl
  | cons a rest => rfl

/-! ### Claim C7: row-wise aggregation, trend filters, and the no-data path -/

theorem mkRangeView_oee_noData (combined : List Row)
    (h : oeeTrendRows combined = []) :
    (mkRangeView combined).oee = TrendOutcome.noData := by
  unfold mkRangeView
  simp [h]

theorem mkRangeView_prod_noData (combined : List Row)
    (h : prodTrendRows combined = []) :
    (mkRangeView combined).prodTrend = TrendOutcome.noData := by
  unfold mkRangeView
  simp [h]

/-- Claim C7:  For a nonempty record list, the range analysis renders a view
whose combined table is the row-wise concatenation of all records'
tables with the columns cleaned: a row is in the combined table exactly
when it is the cleaned image of a row of some record, and cleaning
preserves the row's Date tag.  The OEE trend isolates rows by the
Standard-below-one rule with the equipment labels, the production trend
isolates Particulars equal to Production target, and an empty filtered
set produces the reported no-data outcome, not an error. -/
theorem range_rowwise_union_and_nodata (records : List DailyRecord)
    (h : records ≠ []) :
    ∃ v : RangeView,
      displayDateRangeAnalysis records = (some v, records)
      ∧ v.combined = cleanTable ((records.map (fun rec => rec.df)).flatten)
      ∧ (∀ row, row ∈ v.combined ↔ ∃ rec ∈ records, ∃ s ∈ rec.df, row = cleanRow s)
      ∧ (∀ s : Row, (cleanRow s).date = s.date)
      ∧ v.oee = (if (oeeTrendRows v.combined).isEmpty then TrendOutcome.noData
          else TrendOutcome.chart (oeeTrendRows v.combined))
      ∧ v.prodTrend = (if (prodTrendRows v.combined).isEmpty then TrendOutcome.noData
          else TrendOutcome.chart (prodTrendRows v.combined))
      ∧ prodTrendRows v.combined
          = v.combined.filter (fun r => r.particulars == "Production target") := by
  cases records with
  | nil => exact absurd rfl h
  | cons a rest =>
    refine ⟨mkRangeView (cleanTable (((a :: rest).map (fun rec : DailyRecord => rec.df)).flatten)),
      rfl, rfl, ?_, fun s => rfl, rfl, rfl, rfl⟩
    intro row
    show row ∈ cleanTable (((a :: rest).map (fun rec => rec.df)).flatten) ↔ _
    unfold cleanTable
    simp only [List.mem_map, List.mem_flatten]
    constructor
    · rintro ⟨s, ⟨df, ⟨rec, hrec, rfl⟩, hs⟩, rfl⟩
      exact ⟨rec, hrec, s, hs, rfl⟩
    · rintro ⟨rec, hrec, s, hs, rfl⟩
      exact ⟨s, ⟨rec.df, ⟨rec, hrec, rfl⟩, hs⟩, rfl⟩

/-- Witness for C7: the scenario record list is nonempty, and the view
exists with all the listed properties. -/
theorem range_rowwise_union_and_nodata_witness :
    ∃ v : RangeView,
      displayDateRangeAnalysis [sampleRecord] = (some v, [sampleRecord])
      ∧ v.combined = cleanTable (([sampleRecord].map (fun rec => rec.df)).flatten)
      ∧ (∀ row, row ∈ v.combined ↔ ∃ rec ∈ [sampleRecord], ∃ s ∈ rec.df, row = cleanRow s)
      ∧ (∀ s : Row, (cleanRow s).date = s.date)
      ∧ v.oee = (if (oeeTrendRows v.combined).isEmpty then TrendOutcome.noData
          else TrendOutcome.chart (oeeTrendRows v.combined))
      ∧ v.prodTrend = (if (prodTrendRows v.combined).isEmpty then TrendOutcome.noData
          else TrendOutcome.chart (prodTrendRows v.combined))
      ∧ prodTrendRows v.combined
          = v.combined.filter (fun r => r.particulars == "Production target") :=
  range_rowwise_union_and_nodata [sampleRecord] (by simp)

/-! ### Claim C9: the OEE trend keeps exactly the five equipment labels -/

/-- Claim C9:  In the range analysis, a combined-table row with Standard below
one contributes to the OEE trend exactly when its Particulars is one of
the five labels Pellet-I, Pellet-II, Drier, Chipper I, Chipper II; any
other row with Standard below one is excluded from the trend. -/
theorem oee_trend_exact_labels (records : List DailyRecord) (h : records ≠ [])
    (v : RangeView) (hv : (displayDateRangeAnalysis records).1 = some v) :
    (∀ row ∈ v.combined, cellLtOneB row.standard = true →
      (row ∈ oeeTrendRows v.combined ↔ row.particulars ∈ oeeLabels))
    ∧ oeeLabels = ["Pellet-I", "Pellet-II", "Drier", "Chipper I", "Chipper II"]
    ∧ (∀ row ∈ v.combined, row.particulars ∉ oeeLabels →
      row ∉ oeeTrendRows v.combined)
    ∧ v.oee = (if (oeeTrendRows v.combined).isEmpty then TrendOutcome.noData
        else TrendOutcome.chart (oeeTrendRows v.combined)) := by
  have hmem : ∀ row ∈ v.combined, cellLtOneB row.standard = true →
      (row ∈ oeeTrendRows v.combined ↔ row.particulars ∈ oeeLabels) := by
    intro row hrow hlt
    unfold oeeTrendRows
    simp only [List.mem_filter, hrow, hlt, and_true, true_and]
    simp
  refine ⟨hmem, rfl, ?_, ?_⟩
  · intro row hrow hnot hin
    have hlt : cellLtOneB row.standard = true := by
      have := (List.mem_filter.mp (List.mem_filter.mp hin).1).2
      exact this
    exact hnot ((hmem row hrow hlt).mp hin)
  · cases records with
    | nil => exact absurd rfl h
    | cons a rest =>
      have hv' : v = mkRangeView
          (cleanTable (((a :: rest).map (fun rec : DailyRecord => rec.df)).flatten)) :=
        (Option.some.inj hv).symm
      subst hv'
      rfl

/-- Witness for C9: on the scenario record list the view exists and the
label characterization holds for its combined rows. -/
theorem oee_trend_exact_labels_witness :
    ∃ v : RangeView, (displayDateRangeAnalysis [sampleRecord]).1 = some v
      ∧ (∀ row ∈ v.combined, cellLtOneB row.standard = true →
          (row ∈ oeeTrendRows v.combined ↔ row.particulars ∈ oeeLabels)) :=
  ⟨_, rfl, (oee_trend_exact_labels [sampleRecord] (by simp) _ rfl).1⟩

end AppPellet
